import Mathlib

/-!
Verification of the hstat aggregation store (package store, file store.go).

The Go code is shallowly embedded as follows.

* Go machine integers (int, int64) are modelled as Lean Int; no arithmetic
  in the store can overflow for realistic inputs, and none of the verified
  claims depends on wrap-around.  Go integer division truncates toward
  zero, which is Int.tdiv.
* time.Time is modelled as Int (an absolute tick count);
  t1.After(t2) is t2 < t1, and time.Duration is Int as well.
* A Go map is modelled as an association list in insertion order
  (type GoMap below).  Reading an absent key yields the zero value, as in
  Go; incrementing an absent key inserts it.  Go map iteration order is
  unspecified; where a claim depends on it, theorems quantify over
  permutations of the association list.
* Go float64 arithmetic on rates is modelled as exact rational (Rat)
  arithmetic; the classification counts feeding the rates are integers
  and are exact in both semantics.
* sort.Ints and sort.Slice are modelled with List.insertionSort over the
  corresponding relation.  For sort.Ints the sorted result is the unique
  sorted permutation, so any correct sort agrees; sort.Slice in topN is
  an unstable sort keyed only on the count, so ties land in an
  unspecified order, which the permutation quantification covers.
* nil maps (hostToStatus[h] for an absent h) are modelled as
  Option; none plays the role of nil.
* Store.Add takes *parser.Entry and ignores nil; it is modelled with
  Option Entry.
-/

/-- One parsed log observation (parser.Entry): timestamp, status code,
service and connect latencies in milliseconds, host, path and client IP. -/
structure Entry where
  timestamp : Int
  status : Int
  service : Int
  connect : Int
  host : String
  path : String
  ip : String
deriving DecidableEq, Repr

/-- A Go map with Int values, as an association list in insertion order. -/
abbrev GoMap (κ : Type) := List (κ × Int)

/-- Adds d to m[k], inserting the key with value d when it is absent.
This is the Go map update m[k] += d, where reading an absent key
yields 0. -/
def mapAdd [DecidableEq κ] : GoMap κ → κ → Int → GoMap κ
  | [], k, d => [(k, d)]
  | (k0, v) :: rest, k, d =>
    if k0 = k then (k0, v + d) :: rest else (k0, v) :: mapAdd rest k d

/-- Reads m[k] with the Go convention that an absent key yields 0. -/
def mapGet [DecidableEq κ] (m : GoMap κ) (k : κ) : Int :=
  ((m.find? fun p => decide (p.1 = k)).map Prod.snd).getD 0

/-- Sum of all stored values of a Go map. -/
def sumValues {κ : Type} (m : GoMap κ) : Int :=
  (m.map Prod.snd).sum

/-- A nested Go map: outer label to inner count map. -/
abbrev GoMap2 (κ κ2 : Type) := List (κ × GoMap κ2)

/-- Reads the inner map m[k]; none models the nil map Go returns for an
absent outer key. -/
def map2Get [DecidableEq κ] {κ2 : Type} (m : GoMap2 κ κ2) (k : κ) : Option (GoMap κ2) :=
  (m.find? fun p => decide (p.1 = k)).map Prod.snd

/-- The Go idiom that allocates the inner map when absent and then
increments: if m[k] == nil, m[k] = make(...); m[k][k2] += d. -/
def map2Add [DecidableEq κ] [DecidableEq κ2] : GoMap2 κ κ2 → κ → κ2 → Int → GoMap2 κ κ2
  | [], k, k2, d => [(k, [(k2, d)])]
  | (k0, mm) :: rest, k, k2, d =>
    if k0 = k then (k0, mapAdd mm k2 d) :: rest
    else (k0, mm) :: map2Add rest k k2 d

/-- The guarded decrement used by pruneOldest: if m[k] != nil, m[k][k2]--.
An absent outer key is left untouched. -/
def map2DecIfPresent [DecidableEq κ] [DecidableEq κ2] : GoMap2 κ κ2 → κ → κ2 → GoMap2 κ κ2
  | [], _, _ => []
  | (k0, mm) :: rest, k, k2 =>
    if k0 = k then (k0, mapAdd mm k2 (-1)) :: rest
    else (k0, mm) :: map2DecIfPresent rest k k2

/-- Hard capacity bound on the entry ring (const maxEntries = 100000). -/
def maxEntries : Nat := 100000

/-- Normalization of empty host, IP and path labels to the sentinel
label used at ingestion and eviction time. -/
def normLabel (s : String) : String :=
  if s = "" then "(unknown)" else s

/-- The aggregation store (struct Store): the entry ring, the configured
window, and the derived count tables.  The mutex is a concurrency
artifact with no functional content and is not modelled. -/
structure Store where
  entries : List Entry
  window : Int
  totalCount : Int
  statusCounts : GoMap Int
  hostCounts : GoMap String
  ipCounts : GoMap String
  serviceTimes : List Int
  connectTimes : List Int
  hostToIPs : GoMap2 String String
  ipToHosts : GoMap2 String String
  hostToStatus : GoMap2 String Int
  ipToStatus : GoMap2 String Int
  hostToPaths : GoMap2 String String
  ipToPaths : GoMap2 String String
deriving DecidableEq, Repr

/-- New(window): the empty store with the given retention window
(0 means unbounded, subject only to maxEntries). -/
def Store.new (window : Int) : Store where
  entries := []
  window := window
  totalCount := 0
  statusCounts := []
  hostCounts := []
  ipCounts := []
  serviceTimes := []
  connectTimes := []
  hostToIPs := []
  ipToHosts := []
  hostToStatus := []
  ipToStatus := []
  hostToPaths := []
  ipToPaths := []

/-- The per-entry decrement step of the loop body of pruneOldest: all
seven index structures are decremented symmetrically to Add, with the
nested maps guarded against an absent outer key. -/
def decEntry (s : Store) (e : Entry) : Store :=
  let host := normLabel e.host
  let ip := normLabel e.ip
  let path := normLabel e.path
  { s with
    totalCount := s.totalCount - 1
    statusCounts := mapAdd s.statusCounts e.status (-1)
    hostCounts := mapAdd s.hostCounts host (-1)
    ipCounts := mapAdd s.ipCounts ip (-1)
    hostToIPs := map2DecIfPresent s.hostToIPs host ip
    ipToHosts := map2DecIfPresent s.ipToHosts ip host
    hostToStatus := map2DecIfPresent s.hostToStatus host e.status
    ipToStatus := map2DecIfPresent s.ipToStatus ip e.status
    hostToPaths := map2DecIfPresent s.hostToPaths host path
    ipToPaths := map2DecIfPresent s.ipToPaths ip path }

/-- pruneOldest(count): no-op unless 0 < count and count is at most
len(entries); otherwise decrements the indices for the first count
entries, drops them, and drops from the two latency sample sequences
exactly the number of evicted entries whose status is not 101 (the
timingCount counter of the Go loop). -/
def Store.pruneOldest (s : Store) (count : Int) : Store :=
  if count ≤ 0 ∨ (s.entries.length : Int) < count then s
  else
    { (s.entries.take count.toNat).foldl decEntry s with
      entries := s.entries.drop count.toNat
      serviceTimes :=
        s.serviceTimes.drop
          ((s.entries.take count.toNat).countP (fun e => decide (e.status ≠ 101)))
      connectTimes :=
        s.connectTimes.drop
          ((s.entries.take count.toNat).countP (fun e => decide (e.status ≠ 101))) }

/-- The unconditional body of Add: normalizes the labels, appends the
entry, increments every index, and records latency samples unless the
status is 101. -/
def Store.addEntry (s : Store) (e : Entry) : Store :=
  { s with
    entries := s.entries ++ [e]
    totalCount := s.totalCount + 1
    statusCounts := mapAdd s.statusCounts e.status 1
    hostCounts := mapAdd s.hostCounts (normLabel e.host) 1
    ipCounts := mapAdd s.ipCounts (normLabel e.ip) 1
    serviceTimes :=
      if e.status ≠ 101 then s.serviceTimes ++ [e.service] else s.serviceTimes
    connectTimes :=
      if e.status ≠ 101 then s.connectTimes ++ [e.connect] else s.connectTimes
    hostToIPs := map2Add s.hostToIPs (normLabel e.host) (normLabel e.ip) 1
    ipToHosts := map2Add s.ipToHosts (normLabel e.ip) (normLabel e.host) 1
    hostToStatus := map2Add s.hostToStatus (normLabel e.host) e.status 1
    ipToStatus := map2Add s.ipToStatus (normLabel e.ip) e.status 1
    hostToPaths := map2Add s.hostToPaths (normLabel e.host) (normLabel e.path) 1
    ipToPaths := map2Add s.ipToPaths (normLabel e.ip) (normLabel e.path) 1 }

/-- Add(e): a nil entry is ignored; otherwise the entry is ingested and
the hard capacity cap is enforced by evicting the overflow through
pruneOldest. -/
def Store.add (s : Store) (e? : Option Entry) : Store :=
  match e? with
  | none => s
  | some e =>
    if maxEntries < (s.addEntry e).entries.length then
      (s.addEntry e).pruneOldest
        (((s.addEntry e).entries.length : Int) - (maxEntries : Int))
    else s.addEntry e

/-- Prune(): no-op for a zero window; otherwise the Go loop scans for
the first entry strictly after cutoff and takes its index as the prune
count, leaving the count at 0 when no entry is after cutoff (this is
List.findIdx? with default 0, faithfully including the case in which
every entry is stale). -/
def Store.prune (s : Store) (now : Int) : Store :=
  if s.window = 0 then s
  else if 0 < ((s.entries.findIdx? fun e => decide (now - s.window < e.timestamp)).getD 0) then
    s.pruneOldest
      (((s.entries.findIdx? fun e => decide (now - s.window < e.timestamp)).getD 0 : Nat) : Int)
  else s

/-- One externally triggered mutation of the store: an Add (with the
nil entry allowed) or a Prune observed at some wall-clock instant. -/
inductive Op where
  | add (e : Option Entry)
  | prune (now : Int)
deriving DecidableEq, Repr

/-- Applies one operation. -/
def Store.applyOp (s : Store) : Op → Store
  | .add e => s.add e
  | .prune now => s.prune now

/-- Applies a whole call sequence, oldest first. -/
def Store.applyOps (s : Store) (ops : List Op) : Store :=
  ops.foldl Store.applyOp s

/-- Computed latency statistics (struct Stats). -/
structure Stats where
  totalCount : Int
  avgService : Int
  p50Service : Int
  p95Service : Int
  p99Service : Int
  maxService : Int
  avgConnect : Int
  maxConnect : Int
deriving DecidableEq, Repr

/-- The running maximum loop of GetStats over connect times, started at
the Go zero value. -/
def maxFold (l : List Int) : Int :=
  l.foldl (fun m t => if m < t then t else m) 0

/-- GetStats(): all-zero statistics carrying totalCount when there are
no latency samples; otherwise sorts a copy of serviceTimes ascending
(sort.Ints, modelled by insertionSort, which returns the same sorted
sequence), and reads the average, the three percentile indices with the
p99 clamp, and the maximum from it; connect statistics come from a sum
and running-maximum loop over connectTimes. -/
def Store.getStats (s : Store) : Stats :=
  if s.serviceTimes.length = 0 then
    { totalCount := s.totalCount, avgService := 0, p50Service := 0, p95Service := 0
      p99Service := 0, maxService := 0, avgConnect := 0, maxConnect := 0 }
  else
    let times := List.insertionSort (· ≤ ·) s.serviceTimes
    let len := times.length
    let avg := Int.tdiv times.sum (len : Int)
    let p50 := times.getD (len * 50 / 100) 0
    let p95 := times.getD (len * 95 / 100) 0
    let p99idx0 := len * 99 / 100
    let p99idx := if len ≤ p99idx0 then len - 1 else p99idx0
    let p99 := times.getD p99idx 0
    let maxS := times.getD (len - 1) 0
    let avgC :=
      if 0 < s.connectTimes.length then
        Int.tdiv s.connectTimes.sum (s.connectTimes.length : Int)
      else 0
    let maxC := if 0 < s.connectTimes.length then maxFold s.connectTimes else 0
    { totalCount := s.totalCount, avgService := avg, p50Service := p50, p95Service := p95
      p99Service := p99, maxService := maxS, avgConnect := avgC, maxConnect := maxC }

/-- A labelled count (struct CountItem). -/
structure CountItem where
  label : String
  count : Int
deriving DecidableEq, Repr

/-- The ordering used by the sort.Slice call in topN: descending by
count, with no secondary key. -/
def countGe (a b : CountItem) : Prop := b.count ≤ a.count

instance : DecidableRel countGe :=
  fun a b => inferInstanceAs (Decidable (b.count ≤ a.count))

instance : IsTotal CountItem countGe := ⟨fun a b => le_total b.count a.count⟩

instance : IsTrans CountItem countGe := ⟨fun _ _ _ h1 h2 => le_trans h2 h1⟩

/-- topN(counts, n): nil map yields nil; otherwise the positive-count
pairs are collected in map iteration order (the list order of the
embedding), sorted descending by count alone, and truncated to n.  For
negative n Go would panic on the slice bound; the model returns the
empty list there. -/
def topN (counts : Option (GoMap String)) (n : Int) : List CountItem :=
  match counts with
  | none => []
  | some m =>
    let items := (m.filter fun p => decide (0 < p.2)).map fun p => CountItem.mk p.1 p.2
    let sorted := List.insertionSort countGe items
    if n < (sorted.length : Int) then sorted.take n.toNat else sorted

/-- GetTopHosts(n, filterIP): ranks ipToHosts[filterIP] when the IP
filter is set (nil map when the IP is unknown), else the flat host
counts. -/
def Store.getTopHosts (s : Store) (n : Int) (filterIP : String) : List CountItem :=
  if filterIP ≠ "" then topN (map2Get s.ipToHosts filterIP) n
  else topN (some s.hostCounts) n

/-- GetTopIPs(n, filterHost): ranks hostToIPs[filterHost] when the host
filter is set, else the flat IP counts. -/
def Store.getTopIPs (s : Store) (n : Int) (filterHost : String) : List CountItem :=
  if filterHost ≠ "" then topN (map2Get s.hostToIPs filterHost) n
  else topN (some s.ipCounts) n

/-- Exact-match denylist of operational paths hidden from display. -/
def excludedPaths : List String :=
  ["/ahoy/events", "/ahoy/visits", "/robots.txt"]

/-- Denylisted path beginnings hidden from display. -/
def excludedPathBeginnings : List String :=
  ["/system-status-", "/hirefire"]

/-- Character-list form of strings.HasPrefix: the first argument is the
candidate beginning, matched against the second. -/
def beginsWithChars : List Char → List Char → Bool
  | [], _ => true
  | _ :: _, [] => false
  | c :: cs, d :: ds => c == d && beginsWithChars cs ds

/-- strings.HasPrefix(s, b), computed on the underlying character
lists so that concrete instances reduce in the kernel. -/
def goHasPrefixOf (s b : String) : Bool :=
  beginsWithChars b.data s.data

/-- isExcludedPath: true when the path is denylisted exactly or starts
with a denylisted beginning. -/
def isExcludedPath (path : String) : Bool :=
  excludedPaths.any (fun q => decide (q = path)) ||
    excludedPathBeginnings.any (fun q => goHasPrefixOf path q)

/-- The shared tail of GetTopPaths: drop denylisted paths from the
selected (possibly nil) inner map, then rank.  Iterating a nil Go map
visits nothing, so nil becomes the empty filtered map. -/
def topNExcluding (counts : Option (GoMap String)) (n : Int) : List CountItem :=
  let filtered := (counts.getD []).filter fun p => !(isExcludedPath p.1)
  topN (some filtered) n

/-- GetTopPaths(n, host, ip): ranks the paths of the host filter when
set, else of the IP filter when set, and returns nil when both filters
are empty. -/
def Store.getTopPaths (s : Store) (n : Int) (host ip : String) : List CountItem :=
  if host ≠ "" then topNExcluding (map2Get s.hostToPaths host) n
  else if ip ≠ "" then topNExcluding (map2Get s.ipToPaths ip) n
  else []

/-- GetAllPaths(n): sums hostToPaths over every host, dropping
denylisted and nonpositive entries, then ranks the aggregate. -/
def Store.getAllPaths (s : Store) (n : Int) : List CountItem :=
  let pathCounts := s.hostToPaths.foldl
    (fun acc hp => hp.2.foldl
      (fun acc2 pc =>
        if 0 < pc.2 ∧ isExcludedPath pc.1 = false then mapAdd acc2 pc.1 pc.2 else acc2)
      acc)
    []
  topN (some pathCounts) n

/-- GetOtherCount(counts, topN): membership in the top slice is decided
by its label set, and every positive count outside that set is summed.
The receiver is unused apart from locking, so the model is a plain
function. -/
def getOtherCount (counts : GoMap String) (top : List CountItem) : Int :=
  counts.foldl
    (fun acc p =>
      if (top.any fun item => decide (item.label = p.1)) = false ∧ 0 < p.2 then
        acc + p.2
      else acc)
    0

/-- Separate 4xx and 5xx error rates (struct ErrorRates), as exact
rationals standing for the Go float64 percentages. -/
structure ErrorRates where
  rate4xx : ℚ
  rate5xx : ℚ
deriving DecidableEq, Repr

/-- The classification loop of GetErrorRates over the flat status
counts: 4xx is the range 400..499, 5xx the range 500..599. -/
def errorRatesStep (acc : Int × Int) (q : Int × Int) : Int × Int :=
  if 400 ≤ q.1 ∧ q.1 < 500 then (acc.1 + q.2, acc.2)
  else if 500 ≤ q.1 ∧ q.1 < 600 then (acc.1, acc.2 + q.2)
  else acc

/-- GetErrorRates(): zero rates for an empty store, otherwise the 4xx
and 5xx counts as percentages of totalCount. -/
def Store.getErrorRates (s : Store) : ℚ × ℚ :=
  if s.totalCount = 0 then (0, 0)
  else
    let c := s.statusCounts.foldl errorRatesStep (0, 0)
    ((c.1 : ℚ) * 100 / (s.totalCount : ℚ), (c.2 : ℚ) * 100 / (s.totalCount : ℚ))

/-- The classification loop of calculateErrorRates: only positive
counts contribute, 4xx is the range 400..499, and the 5xx arm of the
else-if has no upper bound (status at least 500). -/
def calcRatesStep (acc : Int × Int × Int) (q : Int × Int) : Int × Int × Int :=
  if 0 < q.2 then
    if 400 ≤ q.1 ∧ q.1 < 500 then (acc.1 + q.2, acc.2.1 + q.2, acc.2.2)
    else if 500 ≤ q.1 then (acc.1 + q.2, acc.2.1, acc.2.2 + q.2)
    else (acc.1 + q.2, acc.2.1, acc.2.2)
  else acc

/-- calculateErrorRates(statusCounts): zero rates for a nil map or a
zero positive total, otherwise the classified counts as percentages of
the positive total. -/
def calculateErrorRates (statusCounts : Option (GoMap Int)) : ErrorRates :=
  match statusCounts with
  | none => { rate4xx := 0, rate5xx := 0 }
  | some m =>
    let c := m.foldl calcRatesStep (0, 0, 0)
    if c.1 = 0 then { rate4xx := 0, rate5xx := 0 }
    else
      { rate4xx := (c.2.1 : ℚ) * 100 / (c.1 : ℚ)
        rate5xx := (c.2.2 : ℚ) * 100 / (c.1 : ℚ) }

/-- GetErrorRatesForHost(host): calculateErrorRates on the
hostToStatus row of the host. -/
def Store.getErrorRatesForHost (s : Store) (host : String) : ErrorRates :=
  calculateErrorRates (map2Get s.hostToStatus host)

/-- GetErrorRatesForIP(ip): calculateErrorRates on the ipToStatus row
of the IP. -/
def Store.getErrorRatesForIP (s : Store) (ip : String) : ErrorRates :=
  calculateErrorRates (map2Get s.ipToStatus ip)

/-- The per-entry loop of GetErrorRatesForPath: entries are matched on
the normalized path; the 5xx arm again has no upper bound. -/
def pathRatesStep (path : String) (acc : Int × Int × Int) (e : Entry) : Int × Int × Int :=
  let p := normLabel e.path
  if p = path then
    if 400 ≤ e.status ∧ e.status < 500 then (acc.1 + 1, acc.2.1 + 1, acc.2.2)
    else if 500 ≤ e.status then (acc.1 + 1, acc.2.1, acc.2.2 + 1)
    else (acc.1 + 1, acc.2.1, acc.2.2)
  else acc

/-- GetErrorRatesForPath(path): scans entries directly, since no
path-to-status index is maintained. -/
def Store.getErrorRatesForPath (s : Store) (path : String) : ErrorRates :=
  let c := s.entries.foldl (pathRatesStep path) (0, 0, 0)
  if c.1 = 0 then { rate4xx := 0, rate5xx := 0 }
  else
    { rate4xx := (c.2.1 : ℚ) * 100 / (c.1 : ℚ)
      rate5xx := (c.2.2 : ℚ) * 100 / (c.1 : ℚ) }

/-- Error rate trend direction (type Trend). -/
inductive Trend where
  | stable
  | up
  | down
deriving DecidableEq, Repr

/-- The bucket-classification loop of GetTrendWithDiff: the accumulator
is (recentTotal, recentErrors, oldTotal, oldErrors); an entry strictly
after the recent cutoff is recent with no upper bound, an entry
strictly after the old cutoff but not after the recent cutoff is old,
anything older is ignored; an error is a status of at least 400. -/
def trendStep (recentCutoff oldCutoff : Int) (acc : Int × Int × Int × Int) (e : Entry) :
    Int × Int × Int × Int :=
  if recentCutoff < e.timestamp then
    (acc.1 + 1, acc.2.1 + (if 400 ≤ e.status then 1 else 0), acc.2.2.1, acc.2.2.2)
  else if oldCutoff < e.timestamp then
    (acc.1, acc.2.1, acc.2.2.1 + 1, acc.2.2.2 + (if 400 ≤ e.status then 1 else 0))
  else acc

/-- GetTrendWithDiff(period): stable with zero diff on an empty store
or when either bucket has fewer than 10 entries; otherwise the trend of
the difference of the two bucket error rates against the significance
threshold of 2 percentage points. -/
def Store.getTrendWithDiff (s : Store) (now period : Int) : ℚ × Trend :=
  if s.entries.length = 0 then (0, Trend.stable)
  else
    let recentCutoff := now - period
    let oldCutoff := now - 2 * period
    let c := s.entries.foldl (trendStep recentCutoff oldCutoff) (0, 0, 0, 0)
    if c.1 < 10 ∨ c.2.2.1 < 10 then (0, Trend.stable)
    else
      let recentRate : ℚ := (c.2.1 : ℚ) / (c.1 : ℚ)
      let oldRate : ℚ := (c.2.2.2 : ℚ) / (c.2.2.1 : ℚ)
      let diff := recentRate - oldRate
      if 2 / 100 < diff then (diff, Trend.up)
      else if diff < -(2 / 100) then (diff, Trend.down)
      else (diff, Trend.stable)

/-- GetTrend(period): the trend component of GetTrendWithDiff. -/
def Store.getTrend (s : Store) (now period : Int) : Trend :=
  (s.getTrendWithDiff now period).2

/-- Strict lexicographic order on lists of naturals, used to spell out
the label order the spec asks for. -/
def lexLtNat : List Nat → List Nat → Bool
  | [], [] => false
  | [], _ :: _ => true
  | _ :: _, [] => false
  | a :: as, b :: bs => if a < b then true else if b < a then false else lexLtNat as bs

/-- Label order of the spec sentence about ranking ties: ascending
lexicographically by character code. -/
def labelLt (a b : String) : Bool :=
  lexLtNat (a.data.map Char.toNat) (b.data.map Char.toNat)

/-- Spec sentence for the ranking order, stated as a relation between
adjacent result items: count strictly descending, ties broken by label
ascending. -/
def claimedTopOrder (a b : CountItem) : Prop :=
  b.count < a.count ∨ (a.count = b.count ∧ labelLt a.label b.label = true)

instance : DecidableRel claimedTopOrder := fun a b =>
  inferInstanceAs (Decidable (b.count < a.count ∨ (a.count = b.count ∧ labelLt a.label b.label = true)))

/-- Spec-side counterpart of calculateErrorRates, following the claim
words: 4xx is the status range 400..499 and 5xx the range 500..599,
both restricted to positive counts, as percentages of the positive
total. -/
def calculateErrorRatesClaimed (statusCounts : Option (GoMap Int)) : ErrorRates :=
  match statusCounts with
  | none => { rate4xx := 0, rate5xx := 0 }
  | some m =>
    let pos := m.filter fun q => decide (0 < q.2)
    let total := (pos.map Prod.snd).sum
    let c4 := ((pos.filter fun q => decide (400 ≤ q.1 ∧ q.1 < 500)).map Prod.snd).sum
    let c5 := ((pos.filter fun q => decide (500 ≤ q.1 ∧ q.1 < 600)).map Prod.snd).sum
    if total = 0 then { rate4xx := 0, rate5xx := 0 }
    else { rate4xx := (c4 : ℚ) * 100 / (total : ℚ), rate5xx := (c5 : ℚ) * 100 / (total : ℚ) }

/-- Spec-side counterpart of GetTrend, following the claim words: the
recent bucket is the half-open interval from now minus period up to but
excluding now, the old bucket the interval from now minus twice the
period up to but excluding now minus period; the minimum sample rule
and the two-percentage-point threshold are as in the code. -/
def trendClaimed (s : Store) (now period : Int) : Trend :=
  let rt := (s.entries.countP fun e => decide (now - period ≤ e.timestamp ∧ e.timestamp < now) : Int)
  let re := (s.entries.countP fun e =>
    decide ((now - period ≤ e.timestamp ∧ e.timestamp < now) ∧ 400 ≤ e.status) : Int)
  let ot := (s.entries.countP fun e =>
    decide (now - 2 * period ≤ e.timestamp ∧ e.timestamp < now - period) : Int)
  let oe := (s.entries.countP fun e =>
    decide ((now - 2 * period ≤ e.timestamp ∧ e.timestamp < now - period) ∧ 400 ≤ e.status) : Int)
  if rt < 10 ∨ ot < 10 then Trend.stable
  else
    let diff : ℚ := (re : ℚ) / (rt : ℚ) - (oe : ℚ) / (ot : ℚ)
    if 2 / 100 < diff then Trend.up
    else if diff < -(2 / 100) then Trend.down
    else Trend.stable

/-- Exact arithmetic mean of a list of integer samples, as a rational,
used to state what the claim literally asserts about AvgService. -/
def ratMean (l : List Int) : ℚ :=
  ((l.map fun x => (x : ℚ)).sum) / (l.length : ℚ)

/-- Entry construction shorthand for the concrete scenarios below. -/
def mkE (t st : Int) (h p i : String) (sv cn : Int) : Entry :=
  { timestamp := t, status := st, service := sv, connect := cn, host := h, path := p, ip := i }

/-- Store with a 100-tick window holding one entry whose timestamp 0 is
far outside the window at instant 1000: the all-entries-stale scenario
for Prune. -/
def staleStore : Store :=
  (Store.new 100).add (some (mkE 0 200 "old.com" "/x" "1.1.1.1" 10 1))

/-- Store with one status-600 entry for host h: calculateErrorRates has
no upper bound on its 5xx arm, unlike the flat GetErrorRates. -/
def status600Store : Store :=
  (Store.new 0).add (some (mkE 0 600 "h" "/p" "3.3.3.3" 1 1))

/-- Store with service samples 1 and 2: the integer average 1 differs
from the exact arithmetic mean 3/2. -/
def meanDemoStore : Store :=
  ((Store.new 0).add (some (mkE 0 200 "a" "/p" "i" 1 0))).add
    (some (mkE 1 200 "a" "/p" "i" 2 0))

/-- Trend scenario at instant 100 with period 10: ten clean entries at
tick 95, ten status-500 entries exactly at the recent cutoff 90, ten
clean entries at tick 85.  The code buckets the tick-90 entries as old,
the claim buckets them as recent, and the two computed trends point in
opposite directions. -/
def trendDemoStore : Store :=
  { Store.new 0 with
    entries :=
      List.replicate 10 (mkE 95 200 "h" "/p" "i" 1 1) ++
      List.replicate 10 (mkE 90 500 "h" "/p" "i" 1 1) ++
      List.replicate 10 (mkE 85 200 "h" "/p" "i" 1 1) }

/-- Store receiving host b.com before host a.com, both once: the two
hosts tie on count and the code emits them in an order that is not
ascending by label. -/
def tieDemoStore : Store :=
  ((Store.new 0).add (some (mkE 0 200 "b.com" "/p" "1.1.1.1" 1 1))).add
    (some (mkE 1 200 "a.com" "/p" "2.2.2.2" 1 1))

/-- Store with two paths for one host, one of them denylisted. -/
def pathDemoStore : Store :=
  ((Store.new 0).add (some (mkE 0 200 "a.com" "/robots.txt" "1.1.1.1" 1 1))).add
    (some (mkE 1 200 "a.com" "/api/users" "1.1.1.1" 1 1))

/-- Store with three entries, the middle one a WebSocket upgrade
(status 101), so that the latency sample sequences are shorter than the
entry ring. -/
def alignDemoStore : Store :=
  (((Store.new 0).add (some (mkE 0 200 "a" "/p" "i" 10 1))).add
    (some (mkE 1 101 "a" "/p" "i" 0 0))).add
    (some (mkE 2 200 "a" "/p" "i" 30 3))

/-- Bookkeeping invariant tying the derived scalars to the entry ring:
totalCount and the flat status and host sums equal the number of
entries, and both latency sample sequences have one sample per
non-101-status entry. -/
def Counted0 (s : Store) : Prop :=
  s.totalCount = (s.entries.length : Int) ∧
  sumValues s.statusCounts = (s.entries.length : Int) ∧
  sumValues s.hostCounts = (s.entries.length : Int) ∧
  s.serviceTimes.length = s.entries.countP (fun e => decide (e.status ≠ 101)) ∧
  s.connectTimes.length = s.entries.countP (fun e => decide (e.status ≠ 101))

/-- Full reachable-state invariant: the bookkeeping invariant plus the
hard capacity bound on the entry ring. -/
def StoreInv (s : Store) : Prop :=
  Counted0 s ∧ s.entries.length ≤ maxEntries

/-- Sum of the positive values of a count map, the quantity the
other-count complement is measured against. -/
def posSum (m : GoMap String) : Int :=
  ((m.filter fun p => decide (0 < p.2)).map Prod.snd).sum

/-- Sum of the counts of a ranked slice. -/
def sumCounts (l : List CountItem) : Int :=
  (l.map CountItem.count).sum

/-- Sum of the positive counts of a status table, the denominator of
calculateErrorRates. -/
def statusPosTotal (m : GoMap Int) : Int :=
  ((m.filter fun q => decide (0 < q.2)).map Prod.snd).sum

/-- Sum of the positive counts with status in 400..499. -/
def statusPos4xx (m : GoMap Int) : Int :=
  ((m.filter fun q => decide (0 < q.2 ∧ 400 ≤ q.1 ∧ q.1 < 500)).map Prod.snd).sum

/-- Sum of the positive counts with status at least 500, with no upper
bound: this is what the else-if arm of calculateErrorRates counts. -/
def statusPos5plus (m : GoMap Int) : Int :=
  ((m.filter fun q => decide (0 < q.2 ∧ 500 ≤ q.1)).map Prod.snd).sum

/-- Sum of all counts with status in 400..499, as totalled by the flat
GetErrorRates loop (which has no positivity guard). -/
def status4xxAll (m : GoMap Int) : Int :=
  ((m.filter fun q => decide (400 ≤ q.1 ∧ q.1 < 500)).map Prod.snd).sum

/-- Sum of all counts with status in 500..599, as totalled by the flat
GetErrorRates loop. -/
def status5xxAll (m : GoMap Int) : Int :=
  ((m.filter fun q => decide (500 ≤ q.1 ∧ q.1 < 600)).map Prod.snd).sum

/-- Number of entries whose normalized path equals the query path. -/
def pathMatchCount (s : Store) (path : String) : Int :=
  (s.entries.countP fun e => decide (normLabel e.path = path) : Int)

/-- Number of matching entries with status in 400..499. -/
def pathMatch4xx (s : Store) (path : String) : Int :=
  (s.entries.countP fun e =>
    decide (normLabel e.path = path ∧ 400 ≤ e.status ∧ e.status < 500) : Int)

/-- Number of matching entries with status at least 500 (no upper
bound). -/
def pathMatch5plus (s : Store) (path : String) : Int :=
  (s.entries.countP fun e =>
    decide (normLabel e.path = path ∧ 500 ≤ e.status) : Int)

/-! Basic lemmas about the map embedding. -/

theorem sumValues_nil {κ : Type} : sumValues ([] : GoMap κ) = 0 := rfl

theorem sumValues_cons {κ : Type} (p : κ × Int) (m : GoMap κ) :
    sumValues (p :: m) = p.2 + sumValues m := by
  simp [sumValues]

theorem sumValues_mapAdd [DecidableEq κ] (m : GoMap κ) (k : κ) (d : Int) :
    sumValues (mapAdd m k d) = sumValues m + d := by
  induction m with
  | nil => simp [mapAdd, sumValues]
  | cons p rest ih =>
    obtain ⟨k0, v⟩ := p
    by_cases h : k0 = k
    · simp only [mapAdd, if_pos h, sumValues_cons]
      omega
    · simp only [mapAdd, if_neg h, sumValues_cons, ih]
      omega

/-! Field behaviour of the eviction loop body. -/

theorem decEntry_entries (s : Store) (e : Entry) : (decEntry s e).entries = s.entries := rfl

theorem decEntry_serviceTimes (s : Store) (e : Entry) :
    (decEntry s e).serviceTimes = s.serviceTimes := rfl

theorem decEntry_connectTimes (s : Store) (e : Entry) :
    (decEntry s e).connectTimes = s.connectTimes := rfl

theorem decEntry_window (s : Store) (e : Entry) : (decEntry s e).window = s.window := rfl

theorem decEntry_totalCount (s : Store) (e : Entry) :
    (decEntry s e).totalCount = s.totalCount - 1 := rfl

theorem decEntry_statusCounts (s : Store) (e : Entry) :
    (decEntry s e).statusCounts = mapAdd s.statusCounts e.status (-1) := rfl

theorem decEntry_hostCounts (s : Store) (e : Entry) :
    (decEntry s e).hostCounts = mapAdd s.hostCounts (normLabel e.host) (-1) := rfl

theorem foldl_decEntry_entries (l : List Entry) :
    ∀ s : Store, (l.foldl decEntry s).entries = s.entries := by
  induction l with
  | nil => intro s; rfl
  | cons e t ih => intro s; rw [List.foldl_cons, ih, decEntry_entries]

theorem foldl_decEntry_serviceTimes (l : List Entry) :
    ∀ s : Store, (l.foldl decEntry s).serviceTimes = s.serviceTimes := by
  induction l with
  | nil => intro s; rfl
  | cons e t ih => intro s; rw [List.foldl_cons, ih, decEntry_serviceTimes]

theorem foldl_decEntry_connectTimes (l : List Entry) :
    ∀ s : Store, (l.foldl decEntry s).connectTimes = s.connectTimes := by
  induction l with
  | nil => intro s; rfl
  | cons e t ih => intro s; rw [List.foldl_cons, ih, decEntry_connectTimes]

theorem foldl_decEntry_window (l : List Entry) :
    ∀ s : Store, (l.foldl decEntry s).window = s.window := by
  induction l with
  | nil => intro s; rfl
  | cons e t ih => intro s; rw [List.foldl_cons, ih, decEntry_window]

theorem foldl_decEntry_totalCount (l : List Entry) :
    ∀ s : Store, (l.foldl decEntry s).totalCount = s.totalCount - l.length := by
  induction l with
  | nil => intro s; simp
  | cons e t ih =>
    intro s
    rw [List.foldl_cons, ih, decEntry_totalCount, List.length_cons]
    push_cast
    ring

theorem foldl_decEntry_sumStatus (l : List Entry) :
    ∀ s : Store, sumValues (l.foldl decEntry s).statusCounts =
      sumValues s.statusCounts - l.length := by
  induction l with
  | nil => intro s; simp
  | cons e t ih =>
    intro s
    rw [List.foldl_cons, ih, decEntry_statusCounts, sumValues_mapAdd, List.length_cons]
    push_cast
    ring

theorem foldl_decEntry_sumHost (l : List Entry) :
    ∀ s : Store, sumValues (l.foldl decEntry s).hostCounts =
      sumValues s.hostCounts - l.length := by
  induction l with
  | nil => intro s; simp
  | cons e t ih =>
    intro s
    rw [List.foldl_cons, ih, decEntry_hostCounts, sumValues_mapAdd, List.length_cons]
    push_cast
    ring

/-! Field behaviour of pruneOldest. -/

theorem pruneOldest_of_guard (s : Store) (c : Int)
    (h : c ≤ 0 ∨ (s.entries.length : Int) < c) : s.pruneOldest c = s := by
  unfold Store.pruneOldest
  rw [if_pos h]

theorem pruneOldest_entries (s : Store) (c : Int)
    (h : ¬(c ≤ 0 ∨ (s.entries.length : Int) < c)) :
    (s.pruneOldest c).entries = s.entries.drop c.toNat := by
  unfold Store.pruneOldest
  rw [if_neg h]

theorem pruneOldest_serviceTimes (s : Store) (c : Int)
    (h : ¬(c ≤ 0 ∨ (s.entries.length : Int) < c)) :
    (s.pruneOldest c).serviceTimes =
      s.serviceTimes.drop
        ((s.entries.take c.toNat).countP (fun e => decide (e.status ≠ 101))) := by
  unfold Store.pruneOldest
  rw [if_neg h]

theorem pruneOldest_connectTimes (s : Store) (c : Int)
    (h : ¬(c ≤ 0 ∨ (s.entries.length : Int) < c)) :
    (s.pruneOldest c).connectTimes =
      s.connectTimes.drop
        ((s.entries.take c.toNat).countP (fun e => decide (e.status ≠ 101))) := by
  unfold Store.pruneOldest
  rw [if_neg h]

theorem pruneOldest_totalCount (s : Store) (c : Int)
    (h : ¬(c ≤ 0 ∨ (s.entries.length : Int) < c)) :
    (s.pruneOldest c).totalCount = s.totalCount - (s.entries.take c.toNat).length := by
  unfold Store.pruneOldest
  rw [if_neg h]
  exact foldl_decEntry_totalCount _ s

theorem pruneOldest_sumStatus (s : Store) (c : Int)
    (h : ¬(c ≤ 0 ∨ (s.entries.length : Int) < c)) :
    sumValues (s.pruneOldest c).statusCounts =
      sumValues s.statusCounts - (s.entries.take c.toNat).length := by
  unfold Store.pruneOldest
  rw [if_neg h]
  exact foldl_decEntry_sumStatus _ s

theorem pruneOldest_sumHost (s : Store) (c : Int)
    (h : ¬(c ≤ 0 ∨ (s.entries.length : Int) < c)) :
    sumValues (s.pruneOldest c).hostCounts =
      sumValues s.hostCounts - (s.entries.take c.toNat).length := by
  unfold Store.pruneOldest
  rw [if_neg h]
  exact foldl_decEntry_sumHost _ s

/-! Field behaviour of Add. -/

theorem add_none (s : Store) : s.add none = s := rfl

theorem add_some (s : Store) (e : Entry) :
    s.add (some e) =
      if maxEntries < (s.addEntry e).entries.length then
        (s.addEntry e).pruneOldest
          (((s.addEntry e).entries.length : Int) - (maxEntries : Int))
      else s.addEntry e := rfl

theorem addEntry_entries (s : Store) (e : Entry) :
    (s.addEntry e).entries = s.entries ++ [e] := rfl

theorem addEntry_length (s : Store) (e : Entry) :
    (s.addEntry e).entries.length = s.entries.length + 1 := by
  rw [addEntry_entries]
  simp

/-! Preservation of the bookkeeping invariant. -/

theorem counted0_new (w : Int) : Counted0 (Store.new w) := by
  refine ⟨rfl, rfl, rfl, rfl, rfl⟩

theorem counted0_addEntry (s : Store) (e : Entry) (h : Counted0 s) :
    Counted0 (s.addEntry e) := by
  obtain ⟨h1, h2, h3, h4, h5⟩ := h
  refine ⟨?_, ?_, ?_, ?_, ?_⟩
  · show s.totalCount + 1 = ((s.entries ++ [e]).length : Int)
    rw [h1]
    simp
  · show sumValues (mapAdd s.statusCounts e.status 1) = ((s.entries ++ [e]).length : Int)
    rw [sumValues_mapAdd, h2]
    simp
  · show sumValues (mapAdd s.hostCounts (normLabel e.host) 1) =
      ((s.entries ++ [e]).length : Int)
    rw [sumValues_mapAdd, h3]
    simp
  · show (if e.status ≠ 101 then s.serviceTimes ++ [e.service] else s.serviceTimes).length =
      (s.entries ++ [e]).countP (fun x => decide (x.status ≠ 101))
    rw [List.countP_append]
    by_cases h101 : e.status = 101
    · simp [h101, h4]
    · simp [h101, h4]
  · show (if e.status ≠ 101 then s.connectTimes ++ [e.connect] else s.connectTimes).length =
      (s.entries ++ [e]).countP (fun x => decide (x.status ≠ 101))
    rw [List.countP_append]
    by_cases h101 : e.status = 101
    · simp [h101, h5]
    · simp [h101, h5]

theorem counted0_pruneOldest (s : Store) (c : Int) (h : Counted0 s) :
    Counted0 (s.pruneOldest c) := by
  by_cases hg : c ≤ 0 ∨ (s.entries.length : Int) < c
  · rw [pruneOldest_of_guard s c hg]
    exact h
  · obtain ⟨h1, h2, h3, h4, h5⟩ := h
    have hk : c.toNat ≤ s.entries.length := by omega
    have htake : (s.entries.take c.toNat).length = c.toNat := by
      rw [List.length_take]
      omega
    have hdrop : (s.entries.drop c.toNat).length = s.entries.length - c.toNat :=
      List.length_drop _ _
    have hsplit : s.entries.countP (fun e => decide (e.status ≠ 101)) =
        (s.entries.take c.toNat).countP (fun e => decide (e.status ≠ 101)) +
        (s.entries.drop c.toNat).countP (fun e => decide (e.status ≠ 101)) := by
      rw [← List.countP_append, List.take_append_drop]
    refine ⟨?_, ?_, ?_, ?_, ?_⟩
    · rw [pruneOldest_totalCount s c hg, pruneOldest_entries s c hg, h1, htake, hdrop]
      omega
    · rw [pruneOldest_sumStatus s c hg, pruneOldest_entries s c hg, h2, htake, hdrop]
      omega
    · rw [pruneOldest_sumHost s c hg, pruneOldest_entries s c hg, h3, htake, hdrop]
      omega
    · rw [pruneOldest_serviceTimes s c hg, pruneOldest_entries s c hg, List.length_drop]
      omega
    · rw [pruneOldest_connectTimes s c hg, pruneOldest_entries s c hg, List.length_drop]
      omega

theorem counted0_add (s : Store) (e? : Option Entry) (h : Counted0 s) :
    Counted0 (s.add e?) := by
  cases e? with
  | none => exact h
  | some e =>
    rw [add_some]
    by_cases hc : maxEntries < (s.addEntry e).entries.length
    · rw [if_pos hc]
      exact counted0_pruneOldest _ _ (counted0_addEntry s e h)
    · rw [if_neg hc]
      exact counted0_addEntry s e h

theorem counted0_prune (s : Store) (now : Int) (h : Counted0 s) :
    Counted0 (s.prune now) := by
  unfold Store.prune
  split
  · exact h
  · split
    · exact counted0_pruneOldest _ _ h
    · exact h

/-! Preservation of the capacity bound. -/

theorem pruneOldest_length_le (s : Store) (c : Int) :
    (s.pruneOldest c).entries.length ≤ s.entries.length := by
  by_cases hg : c ≤ 0 ∨ (s.entries.length : Int) < c
  · rw [pruneOldest_of_guard s c hg]
  · rw [pruneOldest_entries s c hg, List.length_drop]
    omega

theorem add_length_le (s : Store) (e? : Option Entry)
    (h : s.entries.length ≤ maxEntries) : (s.add e?).entries.length ≤ maxEntries := by
  cases e? with
  | none => exact h
  | some e =>
    rw [add_some]
    by_cases hc : maxEntries < (s.addEntry e).entries.length
    · rw [if_pos hc]
      have hlen : (s.addEntry e).entries.length = s.entries.length + 1 := addEntry_length s e
      have hcnt : ((s.addEntry e).entries.length : Int) - (maxEntries : Int) = 1 := by
        omega
      rw [hcnt]
      have hg : ¬((1 : Int) ≤ 0 ∨ ((s.addEntry e).entries.length : Int) < 1) := by
        omega
      rw [pruneOldest_entries _ _ hg, List.length_drop]
      omega
    · rw [if_neg hc]
      omega

theorem prune_length_le (s : Store) (now : Int) :
    (s.prune now).entries.length ≤ s.entries.length := by
  unfold Store.prune
  split
  · exact le_refl _
  · split
    · exact pruneOldest_length_le _ _
    · exact le_refl _

/-! The reachable-state invariant holds along every call sequence. -/

theorem storeInv_applyOp (s : Store) (op : Op) (h : StoreInv s) : StoreInv (s.applyOp op) := by
  obtain ⟨hc, hb⟩ := h
  cases op with
  | add e => exact ⟨counted0_add s e hc, add_length_le s e hb⟩
  | prune now => exact ⟨counted0_prune s now hc, le_trans (prune_length_le s now) hb⟩

theorem storeInv_applyOps (ops : List Op) :
    ∀ s : Store, StoreInv s → StoreInv (s.applyOps ops) := by
  induction ops with
  | nil => intro s h; exact h
  | cons op t ih =>
    intro s h
    exact ih _ (storeInv_applyOp s op h)

theorem storeInv_new (w : Int) : StoreInv (Store.new w) :=
  ⟨counted0_new w, by simp [Store.new, maxEntries]⟩

theorem storeInv_reachable (w : Int) (ops : List Op) :
    StoreInv ((Store.new w).applyOps ops) :=
  storeInv_applyOps ops _ (storeInv_new w)

/-! Claim theorems: invariants and the stale-prune evaluation. -/

/-- C3: after every sequence of Add and Prune calls on a freshly
constructed store, totalCount equals the number of entries, and the
sums of the status and host count tables both equal totalCount. -/
theorem count_conservation (w : Int) (ops : List Op) :
    ((Store.new w).applyOps ops).totalCount =
      (((Store.new w).applyOps ops).entries.length : Int) ∧
    sumValues ((Store.new w).applyOps ops).statusCounts =
      ((Store.new w).applyOps ops).totalCount ∧
    sumValues ((Store.new w).applyOps ops).hostCounts =
      ((Store.new w).applyOps ops).totalCount := by
  obtain ⟨⟨h1, h2, h3, _, _⟩, _⟩ := storeInv_reachable w ops
  exact ⟨h1, by rw [h2, h1], by rw [h3, h1]⟩

/-- C4: after every sequence of Add and Prune calls the two latency
sample sequences have equal length, both equal to the number of entries
whose status is not 101; and pruning drops from the head of each sample
sequence exactly the number of evicted entries whose status is not
101. -/
theorem latency_alignment (w : Int) (ops : List Op) :
    (((Store.new w).applyOps ops).serviceTimes.length =
        ((Store.new w).applyOps ops).connectTimes.length ∧
      ((Store.new w).applyOps ops).serviceTimes.length =
        ((Store.new w).applyOps ops).entries.countP (fun e => decide (e.status ≠ 101))) ∧
    ∀ (s : Store) (c : Int), ¬(c ≤ 0 ∨ (s.entries.length : Int) < c) →
      (s.pruneOldest c).serviceTimes =
        s.serviceTimes.drop
          ((s.entries.take c.toNat).countP (fun e => decide (e.status ≠ 101))) ∧
      (s.pruneOldest c).connectTimes =
        s.connectTimes.drop
          ((s.entries.take c.toNat).countP (fun e => decide (e.status ≠ 101))) := by
  constructor
  · obtain ⟨⟨_, _, _, h4, h5⟩, _⟩ := storeInv_reachable w ops
    exact ⟨by rw [h4, h5], h4⟩
  · intro s c hg
    exact ⟨pruneOldest_serviceTimes s c hg, pruneOldest_connectTimes s c hg⟩

/-- Witness for the pruning part of the latency alignment claim, on a
concrete store whose middle entry has status 101. -/
theorem latency_alignment_witness :
    ¬((2 : Int) ≤ 0 ∨ (alignDemoStore.entries.length : Int) < 2) ∧
    ((alignDemoStore.pruneOldest 2).serviceTimes =
        alignDemoStore.serviceTimes.drop
          ((alignDemoStore.entries.take (2 : Int).toNat).countP
            (fun e => decide (e.status ≠ 101))) ∧
      (alignDemoStore.pruneOldest 2).connectTimes =
        alignDemoStore.connectTimes.drop
          ((alignDemoStore.entries.take (2 : Int).toNat).countP
            (fun e => decide (e.status ≠ 101)))) :=
  ⟨by decide, (latency_alignment 0 []).2 alignDemoStore 2 (by decide)⟩

/-- C9: the entry ring never exceeds the hard cap of 100000 entries
along any sequence of Add and Prune calls, in particular after every
Add. -/
theorem capacity_bound (w : Int) (ops : List Op) :
    ((Store.new w).applyOps ops).entries.length ≤ 100000 := by
  have h := (storeInv_reachable w ops).2
  simpa [maxEntries] using h

/-- C1: evaluation of the Prune loop on a store whose entries are all
stale.  The window is 100 and the only entry has timestamp 0; at
instant 1000 the cutoff is 900, the entry is at or before the cutoff,
yet Prune removes nothing, leaving an entry that violates the claimed
bound timestamp greater than now minus window. -/
theorem prune_all_stale_eval :
    staleStore.window = 100 ∧
    staleStore.entries.map Entry.timestamp = [0] ∧
    staleStore.prune 1000 = staleStore ∧
    ¬(1000 - staleStore.window < (0 : Int)) := by
  refine ⟨rfl, by decide, by decide, by decide⟩

/-- C10: with both filters empty GetTopPaths returns nil for every
store and every n, even though the path tables can be non-empty; the
unfiltered ranking is only reachable through GetAllPaths, shown on a
concrete store whose host has one denylisted and one ordinary path. -/
theorem topPaths_unfiltered_nil :
    (∀ (s : Store) (n : Int), s.getTopPaths n "" "" = []) ∧
    pathDemoStore.getTopPaths 5 "" "" = [] ∧
    map2Get pathDemoStore.hostToPaths "a.com" =
      some [("/robots.txt", 1), ("/api/users", 1)] ∧
    pathDemoStore.getAllPaths 5 = [{ label := "/api/users", count := 1 }] := by
  refine ⟨?_, by decide, by decide, by decide⟩
  intro s n
  simp [Store.getTopPaths]

/-! GetStats. -/

theorem getStats_nonempty (s : Store) (h : s.serviceTimes.length ≠ 0) :
    s.getStats =
      { totalCount := s.totalCount
        avgService :=
          Int.tdiv (List.insertionSort (· ≤ ·) s.serviceTimes).sum
            ((List.insertionSort (· ≤ ·) s.serviceTimes).length : Int)
        p50Service :=
          (List.insertionSort (· ≤ ·) s.serviceTimes).getD
            ((List.insertionSort (· ≤ ·) s.serviceTimes).length * 50 / 100) 0
        p95Service :=
          (List.insertionSort (· ≤ ·) s.serviceTimes).getD
            ((List.insertionSort (· ≤ ·) s.serviceTimes).length * 95 / 100) 0
        p99Service :=
          (List.insertionSort (· ≤ ·) s.serviceTimes).getD
            (if (List.insertionSort (· ≤ ·) s.serviceTimes).length ≤
                (List.insertionSort (· ≤ ·) s.serviceTimes).length * 99 / 100 then
              (List.insertionSort (· ≤ ·) s.serviceTimes).length - 1
            else (List.insertionSort (· ≤ ·) s.serviceTimes).length * 99 / 100) 0
        maxService :=
          (List.insertionSort (· ≤ ·) s.serviceTimes).getD
            ((List.insertionSort (· ≤ ·) s.serviceTimes).length - 1) 0
        avgConnect :=
          if 0 < s.connectTimes.length then
            Int.tdiv s.connectTimes.sum (s.connectTimes.length : Int)
          else 0
        maxConnect := if 0 < s.connectTimes.length then maxFold s.connectTimes else 0 } := by
  unfold Store.getStats
  rw [if_neg h]

/-- C5 (amended): on a non-empty sample sequence GetStats reports the
integer quotient of the sample sum by the sample count as AvgService
(the floor of the arithmetic mean for nonnegative samples, not the
exact mean), the entries of the ascending sorted sample sequence at
indices len times p over 100 (clamped to len minus 1, a clamp that is
never active since those indices are always in range) as the three
percentiles, and the largest sample as MaxService; on an empty sample
sequence it reports all-zero statistics carrying totalCount. -/
theorem getStats_spec (s : Store) :
    (s.serviceTimes = [] →
      s.getStats =
        { totalCount := s.totalCount, avgService := 0, p50Service := 0, p95Service := 0
          p99Service := 0, maxService := 0, avgConnect := 0, maxConnect := 0 }) ∧
    (s.serviceTimes ≠ [] →
      ∃ sorted : List Int,
        sorted.Perm s.serviceTimes ∧
        List.Sorted (· ≤ ·) sorted ∧
        s.getStats.totalCount = s.totalCount ∧
        s.getStats.avgService =
          Int.tdiv s.serviceTimes.sum (s.serviceTimes.length : Int) ∧
        s.getStats.p50Service = sorted.getD (sorted.length * 50 / 100) 0 ∧
        s.getStats.p95Service = sorted.getD (sorted.length * 95 / 100) 0 ∧
        s.getStats.p99Service =
          sorted.getD (min (sorted.length * 99 / 100) (sorted.length - 1)) 0 ∧
        sorted.length * 99 / 100 < sorted.length ∧
        s.getStats.maxService ∈ s.serviceTimes ∧
        ∀ x ∈ s.serviceTimes, x ≤ s.getStats.maxService) := by
  constructor
  · intro h
    unfold Store.getStats
    rw [if_pos (by simp [h])]
  · intro h
    have hne : s.serviceTimes.length ≠ 0 := by simpa using h
    have hperm : (List.insertionSort (· ≤ ·) s.serviceTimes).Perm s.serviceTimes :=
      List.perm_insertionSort _ _
    have hsorted : List.Sorted (· ≤ ·) (List.insertionSort (· ≤ ·) s.serviceTimes) :=
      List.sorted_insertionSort _ _
    have hlen : (List.insertionSort (· ≤ ·) s.serviceTimes).length = s.serviceTimes.length :=
      hperm.length_eq
    have hpos : 0 < (List.insertionSort (· ≤ ·) s.serviceTimes).length := by omega
    have hidx : (List.insertionSort (· ≤ ·) s.serviceTimes).length * 99 / 100 <
        (List.insertionSort (· ≤ ·) s.serviceTimes).length :=
      Nat.div_lt_of_lt_mul (by omega)
    have hgs := getStats_nonempty s hne
    have hlast : (List.insertionSort (· ≤ ·) s.serviceTimes).length - 1 <
        (List.insertionSort (· ≤ ·) s.serviceTimes).length := by omega
    refine ⟨List.insertionSort (· ≤ ·) s.serviceTimes, hperm, hsorted, ?_, ?_, ?_, ?_, ?_,
      hidx, ?_, ?_⟩
    · rw [hgs]
    · rw [hgs]
      show Int.tdiv (List.insertionSort (· ≤ ·) s.serviceTimes).sum
          ((List.insertionSort (· ≤ ·) s.serviceTimes).length : Int) = _
      rw [hperm.sum_eq, hlen]
    · rw [hgs]
    · rw [hgs]
    · rw [hgs]
      show (List.insertionSort (· ≤ ·) s.serviceTimes).getD
          (if (List.insertionSort (· ≤ ·) s.serviceTimes).length ≤
              (List.insertionSort (· ≤ ·) s.serviceTimes).length * 99 / 100 then
            (List.insertionSort (· ≤ ·) s.serviceTimes).length - 1
          else (List.insertionSort (· ≤ ·) s.serviceTimes).length * 99 / 100) 0 = _
      rw [if_neg (by omega), min_eq_left (by omega)]
    · rw [hgs]
      show (List.insertionSort (· ≤ ·) s.serviceTimes).getD
          ((List.insertionSort (· ≤ ·) s.serviceTimes).length - 1) 0 ∈ s.serviceTimes
      rw [List.getD_eq_getElem _ 0 hlast]
      exact hperm.mem_iff.mp (List.getElem_mem hlast)
    · intro x hx
      rw [hgs]
      show x ≤ (List.insertionSort (· ≤ ·) s.serviceTimes).getD
          ((List.insertionSort (· ≤ ·) s.serviceTimes).length - 1) 0
      obtain ⟨i, hi⟩ := List.mem_iff_get.mp (hperm.mem_iff.mpr hx)
      rw [List.getD_eq_getElem _ 0 hlast]
      have hle : i ≤ (⟨(List.insertionSort (· ≤ ·) s.serviceTimes).length - 1, hlast⟩ :
          Fin (List.insertionSort (· ≤ ·) s.serviceTimes).length) := by
        rw [Fin.le_def]
        show i.1 ≤ (List.insertionSort (· ≤ ·) s.serviceTimes).length - 1
        have := i.isLt
        omega
      have hrel := hsorted.rel_get_of_le hle
      rw [hi] at hrel
      simpa using hrel

/-- Witness for the non-empty branch of the GetStats claim, on the
concrete store with service samples 1 and 2. -/
theorem getStats_spec_witness :
    meanDemoStore.serviceTimes ≠ [] ∧
    (∃ sorted : List Int,
      sorted.Perm meanDemoStore.serviceTimes ∧
      List.Sorted (· ≤ ·) sorted ∧
      meanDemoStore.getStats.totalCount = meanDemoStore.totalCount ∧
      meanDemoStore.getStats.avgService =
        Int.tdiv meanDemoStore.serviceTimes.sum (meanDemoStore.serviceTimes.length : Int) ∧
      meanDemoStore.getStats.p50Service = sorted.getD (sorted.length * 50 / 100) 0 ∧
      meanDemoStore.getStats.p95Service = sorted.getD (sorted.length * 95 / 100) 0 ∧
      meanDemoStore.getStats.p99Service =
        sorted.getD (min (sorted.length * 99 / 100) (sorted.length - 1)) 0 ∧
      sorted.length * 99 / 100 < sorted.length ∧
      meanDemoStore.getStats.maxService ∈ meanDemoStore.serviceTimes ∧
      ∀ x ∈ meanDemoStore.serviceTimes, x ≤ meanDemoStore.getStats.maxService) :=
  ⟨by decide, (getStats_spec meanDemoStore).2 (by decide)⟩

/-- Counterexample to the literal mean reading of the GetStats claim:
the store with service samples 1 and 2 reports AvgService 1, while the
exact arithmetic mean of the samples is 3 over 2. -/
theorem avgService_mean_counterexample :
    meanDemoStore.serviceTimes = [1, 2] ∧
    ((meanDemoStore.getStats.avgService : ℚ) ≠ ratMean meanDemoStore.serviceTimes) := by
  refine ⟨by decide, ?_⟩
  have h1 : meanDemoStore.getStats.avgService = 1 := by decide
  have h2 : meanDemoStore.serviceTimes = [1, 2] := by decide
  rw [h1, h2]
  norm_num [ratMean]

/-! Characterization of the error-rate folds. -/

theorem foldl_calcRatesStep (m : GoMap Int) : ∀ acc : Int × Int × Int,
    m.foldl calcRatesStep acc =
      (acc.1 + statusPosTotal m, acc.2.1 + statusPos4xx m, acc.2.2 + statusPos5plus m) := by
  induction m with
  | nil =>
    intro acc
    obtain ⟨a, b, c⟩ := acc
    simp [statusPosTotal, statusPos4xx, statusPos5plus]
  | cons q rest ih =>
    intro acc
    obtain ⟨st, cnt⟩ := q
    rw [List.foldl_cons, ih]
    unfold calcRatesStep statusPosTotal statusPos4xx statusPos5plus
    by_cases h0 : 0 < cnt
    · by_cases h4 : 400 ≤ st ∧ st < 500
      · have h5 : ¬(500 ≤ st) := by omega
        simp [List.filter_cons, h0, h4, h5]
        omega
      · by_cases h5 : 500 ≤ st
        · simp [List.filter_cons, h0, h4, h5]
          omega
        · simp [List.filter_cons, h0, h4, h5]
          omega
    · simp [List.filter_cons, h0]

theorem foldl_errorRatesStep (m : GoMap Int) : ∀ acc : Int × Int,
    m.foldl errorRatesStep acc = (acc.1 + status4xxAll m, acc.2 + status5xxAll m) := by
  induction m with
  | nil =>
    intro acc
    obtain ⟨a, b⟩ := acc
    simp [status4xxAll, status5xxAll]
  | cons q rest ih =>
    intro acc
    obtain ⟨st, cnt⟩ := q
    rw [List.foldl_cons, ih]
    unfold errorRatesStep status4xxAll status5xxAll
    by_cases h4 : 400 ≤ st ∧ st < 500
    · have h5 : ¬(500 ≤ st ∧ st < 600) := by omega
      simp [List.filter_cons, h4, h5]
      omega
    · by_cases h5 : 500 ≤ st ∧ st < 600
      · simp [List.filter_cons, h4, h5]
        omega
      · simp [List.filter_cons, h4, h5]

theorem foldl_pathRatesStep (path : String) (l : List Entry) : ∀ acc : Int × Int × Int,
    l.foldl (pathRatesStep path) acc =
      (acc.1 + (l.countP fun e => decide (normLabel e.path = path) : Int),
       acc.2.1 +
         (l.countP fun e =>
           decide (normLabel e.path = path ∧ 400 ≤ e.status ∧ e.status < 500) : Int),
       acc.2.2 +
         (l.countP fun e => decide (normLabel e.path = path ∧ 500 ≤ e.status) : Int)) := by
  induction l with
  | nil =>
    intro acc
    obtain ⟨a, b, c⟩ := acc
    simp
  | cons e t ih =>
    intro acc
    rw [List.foldl_cons, ih]
    unfold pathRatesStep
    by_cases hp : normLabel e.path = path
    · by_cases h4 : 400 ≤ e.status ∧ e.status < 500
      · have h5 : ¬(500 ≤ e.status) := by omega
        simp [List.countP_cons, hp, h4, h5]
        omega
      · by_cases h5 : 500 ≤ e.status
        · simp [List.countP_cons, hp, h4, h5]
          omega
        · simp [List.countP_cons, hp, h4, h5]
          omega
    · simp [List.countP_cons, hp]

theorem calculateErrorRates_some (m : GoMap Int) :
    calculateErrorRates (some m) =
      if statusPosTotal m = 0 then { rate4xx := 0, rate5xx := 0 }
      else
        { rate4xx := (statusPos4xx m : ℚ) * 100 / (statusPosTotal m : ℚ)
          rate5xx := (statusPos5plus m : ℚ) * 100 / (statusPosTotal m : ℚ) } := by
  simp only [calculateErrorRates, foldl_calcRatesStep, zero_add]

theorem getErrorRates_eq (s : Store) :
    s.getErrorRates =
      if s.totalCount = 0 then (0, 0)
      else ((status4xxAll s.statusCounts : ℚ) * 100 / (s.totalCount : ℚ),
            (status5xxAll s.statusCounts : ℚ) * 100 / (s.totalCount : ℚ)) := by
  simp only [Store.getErrorRates, foldl_errorRatesStep, zero_add]

theorem getErrorRatesForPath_eq (s : Store) (p : String) :
    s.getErrorRatesForPath p =
      if pathMatchCount s p = 0 then { rate4xx := 0, rate5xx := 0 }
      else
        { rate4xx := (pathMatch4xx s p : ℚ) * 100 / (pathMatchCount s p : ℚ)
          rate5xx := (pathMatch5plus s p : ℚ) * 100 / (pathMatchCount s p : ℚ) } := by
  simp only [Store.getErrorRatesForPath, pathMatchCount, pathMatch4xx, pathMatch5plus,
    foldl_pathRatesStep, zero_add]

/-- C2 (amended): the flat GetErrorRates classifies by the status
ranges 400..499 and 500..599 and reports percentages of totalCount
(zero when the store is empty); the ForHost and ForIP variants classify
4xx by 400..499 but 5xx by status at least 500 with no upper bound,
over positive counts of the selected nested table, as percentages of
the positive total (zero for a missing table or zero total); the
ForPath variant scans entries directly with the same unbounded 5xx
arm. -/
theorem errorRates_classification :
    (∀ m : GoMap Int,
      calculateErrorRates (some m) =
        if statusPosTotal m = 0 then { rate4xx := 0, rate5xx := 0 }
        else
          { rate4xx := (statusPos4xx m : ℚ) * 100 / (statusPosTotal m : ℚ)
            rate5xx := (statusPos5plus m : ℚ) * 100 / (statusPosTotal m : ℚ) }) ∧
    (calculateErrorRates none = { rate4xx := 0, rate5xx := 0 }) ∧
    (∀ (s : Store) (h : String),
      s.getErrorRatesForHost h = calculateErrorRates (map2Get s.hostToStatus h)) ∧
    (∀ (s : Store) (i : String),
      s.getErrorRatesForIP i = calculateErrorRates (map2Get s.ipToStatus i)) ∧
    (∀ s : Store,
      s.getErrorRates =
        if s.totalCount = 0 then (0, 0)
        else ((status4xxAll s.statusCounts : ℚ) * 100 / (s.totalCount : ℚ),
              (status5xxAll s.statusCounts : ℚ) * 100 / (s.totalCount : ℚ))) ∧
    (∀ (s : Store) (p : String),
      s.getErrorRatesForPath p =
        if pathMatchCount s p = 0 then { rate4xx := 0, rate5xx := 0 }
        else
          { rate4xx := (pathMatch4xx s p : ℚ) * 100 / (pathMatchCount s p : ℚ)
            rate5xx := (pathMatch5plus s p : ℚ) * 100 / (pathMatchCount s p : ℚ) }) :=
  ⟨calculateErrorRates_some, rfl, fun _ _ => rfl, fun _ _ => rfl,
    getErrorRates_eq, getErrorRatesForPath_eq⟩

/-- Counterexample to the claimed 5xx range for the variants: on the
store holding one status-600 entry for host h, the ForHost and ForPath
variants report a 5xx rate of 100 (their arm is status at least 500),
while the claimed classification by the range 500..599 yields zero, and
the flat GetErrorRates, which does carry the upper bound, reports
zero. -/
theorem errorRates_5xx_range_counterexample :
    status600Store.getErrorRatesForHost "h" = { rate4xx := 0, rate5xx := 100 } ∧
    calculateErrorRatesClaimed (map2Get status600Store.hostToStatus "h") =
      { rate4xx := 0, rate5xx := 0 } ∧
    status600Store.getErrorRates = (0, 0) ∧
    status600Store.getErrorRatesForPath "/p" = { rate4xx := 0, rate5xx := 100 } := by
  have hm : map2Get status600Store.hostToStatus "h" = some [(600, 1)] := by decide
  refine ⟨?_, ?_, ?_, ?_⟩
  · show calculateErrorRates (map2Get status600Store.hostToStatus "h") = _
    rw [hm, calculateErrorRates_some]
    have t1 : statusPosTotal [(600, 1)] = 1 := by decide
    have t2 : statusPos4xx [(600, 1)] = 0 := by decide
    have t3 : statusPos5plus [(600, 1)] = 1 := by decide
    rw [t1, t2, t3]
    norm_num
  · rw [hm]
    unfold calculateErrorRatesClaimed
    norm_num [List.filter_cons, List.filter_nil]
  · rw [getErrorRates_eq]
    have t1 : status4xxAll status600Store.statusCounts = 0 := by decide
    have t2 : status5xxAll status600Store.statusCounts = 0 := by decide
    have t3 : status600Store.totalCount = 1 := by decide
    rw [t1, t2, t3]
    norm_num
  · rw [getErrorRatesForPath_eq]
    have t1 : pathMatchCount status600Store "/p" = 1 := by decide
    have t2 : pathMatch4xx status600Store "/p" = 0 := by decide
    have t3 : pathMatch5plus status600Store "/p" = 1 := by decide
    rw [t1, t2, t3]
    norm_num

/-! Characterization of the trend fold. -/

theorem foldl_trendStep (rc oc : Int) (l : List Entry) : ∀ acc : Int × Int × Int × Int,
    l.foldl (trendStep rc oc) acc =
      (acc.1 + (l.countP fun e => decide (rc < e.timestamp) : Int),
       acc.2.1 + (l.countP fun e => decide (rc < e.timestamp ∧ 400 ≤ e.status) : Int),
       acc.2.2.1 +
         (l.countP fun e => decide (¬(rc < e.timestamp) ∧ oc < e.timestamp) : Int),
       acc.2.2.2 +
         (l.countP fun e =>
           decide ((¬(rc < e.timestamp) ∧ oc < e.timestamp) ∧ 400 ≤ e.status) : Int)) := by
  induction l with
  | nil =>
    intro acc
    obtain ⟨a, b, c, d⟩ := acc
    simp
  | cons e t ih =>
    intro acc
    rw [List.foldl_cons, ih]
    unfold trendStep
    by_cases hr : rc < e.timestamp
    · by_cases he : 400 ≤ e.status
      · simp [List.countP_cons, hr, he]
        omega
      · simp [List.countP_cons, hr, he]
        omega
    · by_cases ho : oc < e.timestamp
      · by_cases he : 400 ≤ e.status
        · simp [List.countP_cons, hr, ho, he]
          omega
        · simp [List.countP_cons, hr, ho, he]
          omega
      · simp [List.countP_cons, hr, ho]

theorem getTrendWithDiff_eq (s : Store) (now period : Int) :
    s.getTrendWithDiff now period =
      if s.entries.length = 0 then ((0 : ℚ), Trend.stable)
      else
        if ((s.entries.countP fun e => decide (now - period < e.timestamp) : Int) < 10 ∨
            (s.entries.countP fun e =>
              decide (¬(now - period < e.timestamp) ∧
                now - 2 * period < e.timestamp) : Int) < 10) then
          ((0 : ℚ), Trend.stable)
        else
          let recentRate : ℚ :=
            ((s.entries.countP fun e =>
              decide (now - period < e.timestamp ∧ 400 ≤ e.status) : Int) : ℚ) /
            (((s.entries.countP fun e => decide (now - period < e.timestamp) : Int)) : ℚ)
          let oldRate : ℚ :=
            ((s.entries.countP fun e =>
              decide ((¬(now - period < e.timestamp) ∧
                now - 2 * period < e.timestamp) ∧ 400 ≤ e.status) : Int) : ℚ) /
            (((s.entries.countP fun e =>
              decide (¬(now - period < e.timestamp) ∧
                now - 2 * period < e.timestamp) : Int)) : ℚ)
          if 2 / 100 < recentRate - oldRate then (recentRate - oldRate, Trend.up)
          else if recentRate - oldRate < -(2 / 100) then (recentRate - oldRate, Trend.down)
          else (recentRate - oldRate, Trend.stable) := by
  simp only [Store.getTrendWithDiff, foldl_trendStep, zero_add]

/-- C6 (amended): GetTrendWithDiff classifies an entry as recent when
its timestamp is strictly after now minus period, with no upper bound
at now, and as old when it is strictly after now minus twice the period
but not after now minus period (so the boundary instant now minus
period itself lands in the old bucket, and the claimed half-open
buckets starting at their left endpoints do not match); an error is a
status of at least 400; the result is Stable with zero diff on an empty
store or when either bucket holds fewer than 10 entries, and otherwise
Up, Down or Stable according to whether the recent error rate minus the
old error rate exceeds 2 percentage points, falls below minus 2
percentage points, or neither; GetTrend is its trend component. -/
theorem trend_bucket_spec :
    (∀ (s : Store) (now period : Int),
      s.getTrend now period = (s.getTrendWithDiff now period).2) ∧
    (∀ (s : Store) (now period : Int),
      s.getTrendWithDiff now period =
        if s.entries.length = 0 then ((0 : ℚ), Trend.stable)
        else
          if ((s.entries.countP fun e => decide (now - period < e.timestamp) : Int) < 10 ∨
              (s.entries.countP fun e =>
                decide (¬(now - period < e.timestamp) ∧
                  now - 2 * period < e.timestamp) : Int) < 10) then
            ((0 : ℚ), Trend.stable)
          else
            let recentRate : ℚ :=
              ((s.entries.countP fun e =>
                decide (now - period < e.timestamp ∧ 400 ≤ e.status) : Int) : ℚ) /
              (((s.entries.countP fun e => decide (now - period < e.timestamp) : Int)) : ℚ)
            let oldRate : ℚ :=
              ((s.entries.countP fun e =>
                decide ((¬(now - period < e.timestamp) ∧
                  now - 2 * period < e.timestamp) ∧ 400 ≤ e.status) : Int) : ℚ) /
              (((s.entries.countP fun e =>
                decide (¬(now - period < e.timestamp) ∧
                  now - 2 * period < e.timestamp) : Int)) : ℚ)
            if 2 / 100 < recentRate - oldRate then (recentRate - oldRate, Trend.up)
            else if recentRate - oldRate < -(2 / 100) then (recentRate - oldRate, Trend.down)
            else (recentRate - oldRate, Trend.stable)) :=
  ⟨fun _ _ _ => rfl, getTrendWithDiff_eq⟩

/-- Counterexample to the claimed bucket boundaries: on the trend
scenario store at instant 100 with period 10, ten error entries sit
exactly at the recent cutoff 90; the code places them in the old bucket
and reports Down, while the claimed partition into the intervals from
90 inclusive to 100 exclusive and from 80 inclusive to 90 exclusive
places them in the recent bucket and yields Up. -/
theorem trend_boundary_counterexample :
    trendDemoStore.getTrend 100 10 = Trend.down ∧
    trendClaimed trendDemoStore 100 10 = Trend.up := by
  constructor
  · show (trendDemoStore.getTrendWithDiff 100 10).2 = Trend.down
    rw [getTrendWithDiff_eq]
    have h1 : ¬(trendDemoStore.entries.length = 0) := by decide
    have h2 : (trendDemoStore.entries.countP fun e =>
        decide ((100 : Int) - 10 < e.timestamp)) = 10 := by decide
    have h3 : (trendDemoStore.entries.countP fun e =>
        decide (¬((100 : Int) - 10 < e.timestamp) ∧
          (100 : Int) - 2 * 10 < e.timestamp)) = 20 := by decide
    have h4 : (trendDemoStore.entries.countP fun e =>
        decide ((100 : Int) - 10 < e.timestamp ∧ 400 ≤ e.status)) = 0 := by decide
    have h5 : (trendDemoStore.entries.countP fun e =>
        decide ((¬((100 : Int) - 10 < e.timestamp) ∧
          (100 : Int) - 2 * 10 < e.timestamp) ∧ 400 ≤ e.status)) = 10 := by decide
    rw [if_neg h1]
    rw [h2, h3, h4, h5]
    norm_num
  · unfold trendClaimed
    have h2 : (trendDemoStore.entries.countP fun e =>
        decide ((100 : Int) - 10 ≤ e.timestamp ∧ e.timestamp < 100)) = 20 := by decide
    have h3 : (trendDemoStore.entries.countP fun e =>
        decide (((100 : Int) - 10 ≤ e.timestamp ∧ e.timestamp < 100) ∧
          400 ≤ e.status)) = 10 := by decide
    have h4 : (trendDemoStore.entries.countP fun e =>
        decide ((100 : Int) - 2 * 10 ≤ e.timestamp ∧ e.timestamp < 100 - 10)) = 10 := by
      decide
    have h5 : (trendDemoStore.entries.countP fun e =>
        decide (((100 : Int) - 2 * 10 ≤ e.timestamp ∧ e.timestamp < 100 - 10) ∧
          400 ≤ e.status)) = 0 := by decide
    rw [h2, h3, h4, h5]
    norm_num

/-! Ranking helpers. -/

theorem topN_sublist (m : GoMap String) (n : Int) :
    (topN (some m) n).Sublist
      (List.insertionSort countGe
        ((m.filter fun p => decide (0 < p.2)).map fun p => CountItem.mk p.1 p.2)) := by
  simp only [topN]
  split
  · exact List.take_sublist _ _
  · exact List.Sublist.refl _

theorem mapmk_label (l : List (String × Int)) :
    ((l.map fun p => CountItem.mk p.1 p.2).map CountItem.label) = l.map Prod.fst := by
  induction l with
  | nil => rfl
  | cons p t ih => simp [ih]

theorem mapmk_count (l : List (String × Int)) :
    ((l.map fun p => CountItem.mk p.1 p.2).map CountItem.count) = l.map Prod.snd := by
  induction l with
  | nil => rfl
  | cons p t ih => simp [ih]

theorem foldl_cond_sum {α : Type} (C : α → Prop) [DecidablePred C] (f : α → Int)
    (l : List α) : ∀ a : Int,
    l.foldl (fun acc x => if C x then acc + f x else acc) a =
      a + ((l.filter fun x => decide (C x)).map f).sum := by
  induction l with
  | nil => intro a; simp
  | cons x t ih =>
    intro a
    rw [List.foldl_cons]
    by_cases h : C x
    · rw [ih]
      simp [List.filter_cons, h]
      omega
    · rw [ih]
      simp [List.filter_cons, h]

theorem sum_filter_split {α : Type} (C : α → Bool) (f : α → Int) (l : List α) :
    ((l.filter C).map f).sum + ((l.filter fun x => !(C x)).map f).sum = (l.map f).sum := by
  induction l with
  | nil => simp
  | cons x t ih =>
    by_cases h : C x = true
    · simp [List.filter_cons, h]
      omega
    · have h2 : C x = false := by simpa using h
      simp [List.filter_cons, h2]
      omega

theorem getOtherCount_eq (counts : GoMap String) (top : List CountItem) :
    getOtherCount counts top =
      ((counts.filter fun p =>
        decide ((top.any fun item => decide (item.label = p.1)) = false ∧ 0 < p.2)).map
        Prod.snd).sum := by
  unfold getOtherCount
  rw [foldl_cond_sum
    (fun p : String × Int =>
      (top.any fun item => decide (item.label = p.1)) = false ∧ 0 < p.2)
    Prod.snd counts 0]
  simp

/-- C7 (amended): GetTopHosts with an empty IP filter ranks the flat
host counts through topN; every topN result is sorted by count
descending (the countGe relation between adjacent items), and every
returned item is a positive-count pair of the underlying map; but the
sort key is the count alone, so equal counts land in an order inherited
from map iteration and the unstable sort, not the ascending label order
the claim asserts, and repeated calls are only identical for a fixed
iteration order. -/
theorem topHosts_order_spec :
    (∀ (s : Store) (n : Int), s.getTopHosts n "" = topN (some s.hostCounts) n) ∧
    (∀ (m : GoMap String) (n : Int), (topN (some m) n).Pairwise countGe) ∧
    (∀ (m : GoMap String) (n : Int) (i : CountItem),
      i ∈ topN (some m) n → 0 < i.count ∧ (i.label, i.count) ∈ m) := by
  refine ⟨?_, ?_, ?_⟩
  · intro s n
    rw [Store.getTopHosts, if_neg (by simp)]
  · intro m n
    exact List.Pairwise.sublist (topN_sublist m n) (List.sorted_insertionSort countGe _)
  · intro m n i hi
    have hi2 := (List.perm_insertionSort countGe _).subset ((topN_sublist m n).subset hi)
    rw [List.mem_map] at hi2
    obtain ⟨p, hp, rfl⟩ := hi2
    rw [List.mem_filter] at hp
    refine ⟨by simpa using hp.2, ?_⟩
    simpa using hp.1

/-- Witness for the membership part of the ranking claim, at a
one-entry count map. -/
theorem topHosts_order_spec_witness :
    (CountItem.mk "x" 5 ∈ topN (some [("x", 5)]) 1) ∧
    (0 < (CountItem.mk "x" 5).count ∧
      ((CountItem.mk "x" 5).label, (CountItem.mk "x" 5).count) ∈ [("x", 5)]) :=
  ⟨by decide, topHosts_order_spec.2.2 [("x", 5)] 1 (CountItem.mk "x" 5) (by decide)⟩

/-- Counterexample to the claimed tie-break: the store that saw b.com
before a.com, once each, returns the tied pair with b.com first, which
is not ascending by label, so the output is not ordered by count
descending with ties broken by label ascending. -/
theorem topHosts_tie_counterexample :
    tieDemoStore.getTopHosts 2 "" =
      [{ label := "b.com", count := 1 }, { label := "a.com", count := 1 }] ∧
    labelLt "a.com" "b.com" = true ∧
    ¬(tieDemoStore.getTopHosts 2 "").Pairwise claimedTopOrder := by
  refine ⟨by decide, by decide, by decide⟩

/-- C8: for every count map with distinct keys (as every Go map has)
and every top slice ranked from any iteration order of that same map,
GetOtherCount plus the sum of the slice counts equals the sum of the
positive counts of the map; membership of the slice is decided through
its label set. -/
theorem otherCount_complement (m tops : GoMap String) (n : Int)
    (hperm : m.Perm tops) (hnodup : (m.map Prod.fst).Nodup) :
    getOtherCount m (topN (some tops) n) + sumCounts (topN (some tops) n) = posSum m := by
  have hplabels : (tops.map Prod.fst).Nodup := (hperm.map Prod.fst).nodup hnodup
  have hfring : ((tops.filter fun p => decide (0 < p.2)).map Prod.fst).Nodup :=
    List.Nodup.sublist (List.Sublist.map Prod.fst (List.filter_sublist tops)) hplabels
  have hlabels : (((tops.filter fun p => decide (0 < p.2)).map
      fun p => CountItem.mk p.1 p.2).map CountItem.label).Nodup := by
    rw [mapmk_label]
    exact hfring
  have hitems_nodup : ((tops.filter fun p => decide (0 < p.2)).map
      fun p => CountItem.mk p.1 p.2).Nodup :=
    List.Nodup.of_map CountItem.label hlabels
  have hsortperm := List.perm_insertionSort countGe
    ((tops.filter fun p => decide (0 < p.2)).map fun p => CountItem.mk p.1 p.2)
  have htopsub := topN_sublist tops n
  have htop_nodup : (topN (some tops) n).Nodup :=
    List.Nodup.sublist htopsub (hsortperm.symm.nodup hitems_nodup)
  have htopmem : ∀ i ∈ topN (some tops) n,
      i ∈ (tops.filter fun p => decide (0 < p.2)).map fun p => CountItem.mk p.1 p.2 :=
    fun i hi => hsortperm.subset (htopsub.subset hi)
  have hinj := List.inj_on_of_nodup_map hlabels
  have hmem_iff : ∀ x : CountItem,
      x ∈ ((tops.filter fun p => decide (0 < p.2)).map
        (fun p => CountItem.mk p.1 p.2)).filter
          (fun i => (topN (some tops) n).any fun it => decide (it.label = i.label)) ↔
      x ∈ topN (some tops) n := by
    intro x
    rw [List.mem_filter]
    constructor
    · rintro ⟨hx, hPx⟩
      rw [List.any_eq_true] at hPx
      obtain ⟨it, hit, hlab⟩ := hPx
      have hl2 : it.label = x.label := of_decide_eq_true hlab
      have heq : it = x := hinj (htopmem it hit) hx hl2
      rwa [← heq]
    · intro hx
      refine ⟨htopmem x hx, ?_⟩
      rw [List.any_eq_true]
      exact ⟨x, hx, by simp⟩
  have hfilter_nodup : (((tops.filter fun p => decide (0 < p.2)).map
      (fun p => CountItem.mk p.1 p.2)).filter
        (fun i => (topN (some tops) n).any fun it => decide (it.label = i.label))).Nodup :=
    List.Nodup.sublist (List.filter_sublist _) hitems_nodup
  have hfperm := (List.perm_ext_iff_of_nodup hfilter_nodup htop_nodup).mpr hmem_iff
  have hsum_top : sumCounts (topN (some tops) n) =
      ((((tops.filter fun p => decide (0 < p.2)).map
        (fun p => CountItem.mk p.1 p.2)).filter
          (fun i => (topN (some tops) n).any fun it => decide (it.label = i.label))).map
        CountItem.count).sum := by
    unfold sumCounts
    exact ((hfperm.map CountItem.count).sum_eq).symm
  rw [getOtherCount_eq]
  have hQperm := (hperm.filter (fun p : String × Int =>
    decide (((topN (some tops) n).any fun item => decide (item.label = p.1)) = false ∧
      0 < p.2))).map Prod.snd
  rw [hQperm.sum_eq]
  have hposperm : posSum m = posSum tops := by
    unfold posSum
    exact ((hperm.filter fun p => decide (0 < p.2)).map Prod.snd).sum_eq
  rw [hposperm]
  have hsplit := sum_filter_split
    (fun i => (topN (some tops) n).any fun it => decide (it.label = i.label))
    CountItem.count
    ((tops.filter fun p => decide (0 < p.2)).map fun p => CountItem.mk p.1 p.2)
  have htotal : (((tops.filter fun p => decide (0 < p.2)).map
      (fun p => CountItem.mk p.1 p.2)).map CountItem.count).sum = posSum tops := by
    rw [mapmk_count]
    rfl
  have hnegfilter :
      ((((tops.filter fun p => decide (0 < p.2)).map
        (fun p => CountItem.mk p.1 p.2)).filter
          (fun i => !((topN (some tops) n).any fun it => decide (it.label = i.label)))).map
        CountItem.count).sum =
      ((tops.filter fun p =>
        decide (((topN (some tops) n).any fun item => decide (item.label = p.1)) = false ∧
          0 < p.2)).map Prod.snd).sum := by
    rw [List.filter_map, mapmk_count, List.filter_filter]
    have hfe : tops.filter (fun p =>
        ((fun i => !((topN (some tops) n).any fun it => decide (it.label = i.label))) ∘
          fun p => CountItem.mk p.1 p.2) p && decide (0 < p.2)) =
        tops.filter (fun p =>
          decide (((topN (some tops) n).any fun item => decide (item.label = p.1)) = false ∧
            0 < p.2)) := by
      apply List.filter_congr
      intro p _
      by_cases hA : ((topN (some tops) n).any fun item => decide (item.label = p.1)) = true
      · simp [Function.comp, hA]
      · have hA2 : ((topN (some tops) n).any fun item => decide (item.label = p.1)) = false := by
          simpa using hA
        by_cases hB : 0 < p.2
        · simp [Function.comp, hA2, hB]
        · simp [Function.comp, hA2, hB]
    rw [hfe]
  rw [hsum_top, ← hnegfilter]
  omega

/-- Witness for the other-count complement on a two-entry map and its
reversed iteration order, with n = 1. -/
theorem otherCount_complement_witness :
    (([("a", 2), ("b", 1)] : GoMap String).Perm [("b", 1), ("a", 2)]) ∧
    ((([("a", 2), ("b", 1)] : GoMap String).map Prod.fst).Nodup) ∧
    getOtherCount [("a", 2), ("b", 1)] (topN (some [("b", 1), ("a", 2)]) 1) +
      sumCounts (topN (some [("b", 1), ("a", 2)]) 1) = posSum [("a", 2), ("b", 1)] :=
  ⟨List.Perm.swap ("b", 1) ("a", 2) [], by decide,
    otherCount_complement [("a", 2), ("b", 1)] [("b", 1), ("a", 2)] 1
      (List.Perm.swap ("b", 1) ("a", 2) []) (by decide)⟩
